import Mathlib

/-
Verification of the entity-resolution lookup pipeline of the
ICO-Collector repository (get_ico_v2.py, get_ico_chatgpt.py and
streamlit_app/utils/ico_processor.py), as a shallow embedding in Lean.

Strings are modelled by Lean strings; Python regular expressions used by
the source are embedded as executable functions on character lists;
monotonic time is modelled by rational numbers; the remote RPO service is
modelled as an oracle mapping a query variant and an attempt number to a
response; thread-pool completion interleavings are modelled as explicit
completion orders (permutations of each batch's index range).
-/

namespace RPO

/-- Configuration constant RETRY_COUNT from the source. -/
def RETRY_COUNT : Nat := 3

/-- Configuration constant RETRY_SLEEP_BASE (0.7 seconds) from the source. -/
def RETRY_SLEEP_BASE : ℚ := 7 / 10

/-- Configuration constant MAX_REQ_PER_MIN from the source. -/
def MAX_REQ_PER_MIN : Nat := 60

/-- Configuration constant BATCH_SIZE from the source. -/
def BATCH_SIZE : Nat := 60

/-- Whitespace test modelling the character class backslash-s of Python
regular expressions and the default str.strip, on the repertoire this
program meets (space, tab, newline, carriage return, form feed, vertical
tab). -/
def isWs (c : Char) : Bool :=
  c == ' ' || c == '\t' || c == '\n' || c == '\r' ||
    c == Char.ofNat 11 || c == Char.ofNat 12

/-- Case folding of one character, modelling Python str.casefold and the
IGNORECASE regex flag on the Latin/Slovak repertoire used by this
program: ASCII letters are lowered, and the accented capitals appearing
in the data are mapped to their lowercase forms. -/
def caseFold (c : Char) : Char :=
  if 'A' ≤ c ∧ c ≤ 'Z' then Char.ofNat (c.toNat + 32)
  else if c == 'Á' then 'á'
  else if c == 'Ä' then 'ä'
  else if c == 'Č' then 'č'
  else if c == 'Ď' then 'ď'
  else if c == 'É' then 'é'
  else if c == 'Í' then 'í'
  else if c == 'Ľ' then 'ľ'
  else if c == 'Ĺ' then 'ĺ'
  else if c == 'Ň' then 'ň'
  else if c == 'Ó' then 'ó'
  else if c == 'Ô' then 'ô'
  else if c == 'Ŕ' then 'ŕ'
  else if c == 'Š' then 'š'
  else if c == 'Ť' then 'ť'
  else if c == 'Ú' then 'ú'
  else if c == 'Ý' then 'ý'
  else if c == 'Ž' then 'ž'
  else c

/-- Case folding of a whole string (Python str.casefold on this
program's repertoire). -/
def casefoldStr (s : String) : String :=
  ⟨s.data.map caseFold⟩

/-- Drop trailing characters satisfying a predicate. -/
def dropTrailing (p : Char → Bool) (l : List Char) : List Char :=
  (l.reverse.dropWhile p).reverse

/-- Python str.strip() on a character list: remove leading and trailing
whitespace. -/
def pyStrip (l : List Char) : List Char :=
  dropTrailing isWs (l.dropWhile isWs)

/-- Python str.strip(chars): remove leading and trailing characters that
belong to the given set. -/
def pyStripChars (cs : List Char) (l : List Char) : List Char :=
  dropTrailing (fun c => cs.contains c) (l.dropWhile (fun c => cs.contains c))

/-- Python str.strip() on a Lean string. -/
def pyStripStr (s : String) : String :=
  ⟨pyStrip s.data⟩

/-- Accent stripping of one character. The source computes NFKD
normalization and drops combining marks; on the precomposed Latin
letters this program meets, that maps each accented letter to its base
letter, which is what this table does (identity on ASCII). -/
def stripAccentChar (c : Char) : Char :=
  if c == 'á' then 'a' else if c == 'Á' then 'A'
  else if c == 'ä' then 'a' else if c == 'Ä' then 'A'
  else if c == 'č' then 'c' else if c == 'Č' then 'C'
  else if c == 'ď' then 'd' else if c == 'Ď' then 'D'
  else if c == 'é' then 'e' else if c == 'É' then 'E'
  else if c == 'í' then 'i' else if c == 'Í' then 'I'
  else if c == 'ľ' then 'l' else if c == 'Ľ' then 'L'
  else if c == 'ĺ' then 'l' else if c == 'Ĺ' then 'L'
  else if c == 'ň' then 'n' else if c == 'Ň' then 'N'
  else if c == 'ó' then 'o' else if c == 'Ó' then 'O'
  else if c == 'ô' then 'o' else if c == 'Ô' then 'O'
  else if c == 'ŕ' then 'r' else if c == 'Ŕ' then 'R'
  else if c == 'š' then 's' else if c == 'Š' then 'S'
  else if c == 'ť' then 't' else if c == 'Ť' then 'T'
  else if c == 'ú' then 'u' else if c == 'Ú' then 'U'
  else if c == 'ý' then 'y' else if c == 'Ý' then 'Y'
  else if c == 'ž' then 'z' else if c == 'Ž' then 'Z'
  else c

/-- strip_accents from the source: NFKD-decompose and drop combining
marks, modelled character-wise. -/
def strip_accents (s : String) : String :=
  ⟨s.data.map stripAccentChar⟩

/-- The digit characters of a string, modelling re.sub of the class
backslash-D-plus with the empty string (non-digits removed). -/
def digitsOf (s : String) : String :=
  ⟨s.data.filter Char.isDigit⟩

/-- normalize_ico from ico_processor.py and get_ico_v2.py: None for a
falsy value, otherwise the stripped digit string exactly when 8 digits
remain. -/
def normalize_ico (value : Option String) : Option String :=
  match value with
  | none => none
  | some s =>
    if s = "" then none
    else if (digitsOf s).length = 8 then some (digitsOf s) else none

end RPO

namespace Chatgpt

/-- is_valid_ico from get_ico_chatgpt.py: an 8-digit string whose 8th
digit equals the mod-11 check value of the first seven digits weighted
8,7,6,5,4,3,2 with the mapping 0 to 1, 1 to 0, otherwise 11 - mod. -/
def is_valid_ico (ico : String) : Bool :=
  if ico.length == 8 && ico.data.all Char.isDigit then
    let digits := ico.data.map (fun c => c.toNat - 48)
    let weights : List Nat := [8, 7, 6, 5, 4, 3, 2]
    let s : Nat := (((digits.take 7).zip weights).map (fun dw => dw.1 * dw.2)).sum
    let mo : Nat := s % 11
    let check : Nat := if mo = 0 then 1 else if mo = 1 then 0 else 11 - mo
    digits.getD 7 0 == check
  else false

/-- normalize_ico from get_ico_chatgpt.py: returns the stripped 8-digit
string when the checksum passes, and still returns it when the checksum
fails (the source comment says the metadata are not always right but the
identifier tends to be correct); anything that does not strip to 8
digits is rejected. -/
def normalize_ico (value : Option String) : Option String :=
  match value with
  | none => none
  | some s =>
    if s = "" then none
    else
      let digits := RPO.digitsOf s
      if digits.length == 8 && is_valid_ico digits then some digits
      else if digits.length = 8 then some digits else none

/-- Modelled from the spec: the checksum digit as the specification
states it, written as an explicit weighted sum over the first seven
digits of the string (weights 8 down to 2, mod 11, mapping 0 to 1, 1 to
0, otherwise 11 - mod). Used to compare the source checksum against the
claim's formula. -/
def specChecksumDigit (s : String) : Nat :=
  let d : Nat → Nat := fun i => (s.data.getD i '0').toNat - 48
  let mo := (8 * d 0 + 7 * d 1 + 6 * d 2 + 5 * d 3 + 4 * d 4 + 3 * d 5 + 2 * d 6) % 11
  if mo = 0 then 1 else if mo = 1 then 0 else 11 - mo

/-- The 8th digit of a digit string (index 7), as a number. -/
def eighthDigit (s : String) : Nat :=
  (s.data.getD 7 '0').toNat - 48

end Chatgpt

namespace RPO

/-- One token of the LEGAL_FORMS_REGEX alternation: a literal character
(compared case-insensitively), an optional character (a dot made
optional by a question mark), zero-or-more whitespace, or one-or-more
whitespace. -/
inductive Pat
  | lit (c : Char)
  | optChar (c : Char)
  | ws0
  | ws1
deriving DecidableEq

/-- Literal pattern tokens for a fixed word. -/
def lits (s : String) : List Pat :=
  s.data.map Pat.lit

/-- The suffixes reachable from the input by consuming zero or more
whitespace characters (used for the zero-or-more whitespace token). -/
def wsSuffixes : List Char → List (List Char)
  | [] => [[]]
  | x :: xs => (x :: xs) :: (if isWs x then wsSuffixes xs else [])

/-- The suffixes reachable by consuming one token from the input. -/
def patPositions : Pat → List Char → List (List Char)
  | .lit _, [] => []
  | .lit c, x :: xs => if caseFold x == c then [xs] else []
  | .optChar _, [] => [[]]
  | .optChar c, x :: xs =>
      (if caseFold x == c then [xs] else []) ++ [x :: xs]
  | .ws0, xs => wsSuffixes xs
  | .ws1, [] => []
  | .ws1, x :: xs => if isWs x then wsSuffixes xs else []

/-- Matcher: does the token list consume the whole input? Models one
alternative of LEGAL_FORMS_REGEX anchored at end of string (the source
pattern ends with a dollar anchor), by simulating the set of reachable
suffix positions token by token. -/
def matchPats (ps : List Pat) (xs : List Char) : Bool :=
  (ps.foldl (fun states p => (states.map (patPositions p)).flatten) [xs]).any
    (fun st => st.isEmpty)

/-- The s-r-o alternative of LEGAL_FORMS_REGEX. -/
def sroAlt : List Pat :=
  [.lit 's', .optChar '.', .ws0, .lit 'r', .optChar '.', .ws0, .lit 'o', .optChar '.']

/-- The alternatives of LEGAL_FORMS_REGEX, in source order. -/
def legalFormAlts : List (List Pat) :=
  [ sroAlt
  , lits "spol." ++ [.ws0] ++ sroAlt
  , [.lit 'a', .optChar '.', .ws0, .lit 's', .optChar '.']
  , [.lit 'v', .optChar '.', .ws0, .lit 'o', .optChar '.', .ws0, .lit 's', .optChar '.']
  , [.lit 'k', .optChar '.', .ws0, .lit 's', .optChar '.']
  , [.lit 'n', .optChar '.', .ws0, .lit 'o', .optChar '.']
  , [.lit 'o', .optChar '.', .ws0, .lit 'z', .optChar '.']
  , lits "štátny" ++ [.ws1] ++ lits "podnik"
  , [.lit 'š', .optChar '.', .ws0, .lit 'p', .optChar '.']
  , lits "družstvo"
  , lits "akciová" ++ [.ws1] ++ lits "spoločnosť"
  , lits "komanditná" ++ [.ws1] ++ lits "spoločnosť"
  , lits "verejná" ++ [.ws1] ++ lits "obchodná" ++ [.ws1] ++ lits "spoločnosť"
  , lits "nezisková" ++ [.ws1] ++ lits "organizácia"
  , lits "občianske" ++ [.ws1] ++ lits "združenie"
  ]

/-- Does LEGAL_FORMS_REGEX match the given input in its entirety,
including the optional leading comma-and-whitespace group? -/
def legalFormsMatchToEnd (xs : List Char) : Bool :=
  legalFormAlts.any (fun alt => matchPats alt xs) ||
    (match xs with
     | c :: rest => c == ',' && legalFormAlts.any (fun alt => matchPats (.ws0 :: alt) rest)
     | [] => false)

/-- LEGAL_FORMS_REGEX.sub of the empty string: the regex is anchored at
end of string, so substitution removes everything from the leftmost
position at which an alternative matches through to the end, and leaves
the input unchanged when no position matches. -/
def stripLegalSuffix : List Char → List Char
  | [] => []
  | x :: xs => if legalFormsMatchToEnd (x :: xs) then [] else x :: stripLegalSuffix xs

/-- SPACES_REGEX.sub of a single space: collapse every maximal run of
whitespace into one space. -/
def collapseWsAux : List Char → Bool → List Char
  | [], _ => []
  | c :: rest, prevWs =>
    if isWs c then
      if prevWs then collapseWsAux rest true
      else ' ' :: collapseWsAux rest true
    else c :: collapseWsAux rest false

/-- SPACES_REGEX.sub of a single space over a whole list. -/
def collapseWs (l : List Char) : List Char :=
  collapseWsAux l false

/-- clean_company_name from ico_processor.py: strip surrounding
whitespace and quote characters, keep only the text before the first
comma, strip a trailing legal-form token, and collapse whitespace runs.
The quote characters stripped are the double quote, apostrophe and
backtick (written by code point). -/
def clean_company_name (name : String) : String :=
  if name = "" then ""
  else
    let n := pyStrip name.data
    let n := pyStripChars [Char.ofNat 34, Char.ofNat 39, Char.ofNat 96] n
    let n := if n.contains ',' then pyStrip (n.takeWhile (fun c => !(c == ','))) else n
    let n := pyStrip (stripLegalSuffix n)
    let n := collapseWs n
    ⟨n⟩

/-- generate_query_variants from the source: the ordered, deduplicated,
non-empty list of raw, cleaned, accent-stripped raw and accent-stripped
cleaned forms. -/
def generate_query_variants (name : String) : List String :=
  let raw := pyStripStr name
  let cleaned := clean_company_name raw
  [raw, cleaned, strip_accents raw, strip_accents cleaned].foldl
    (fun variants x =>
      let x := pyStripStr x
      if x ≠ "" ∧ x ∉ variants then variants ++ [x] else variants)
    []

/-- names_match from the source: equality of cleaned, case-folded names. -/
def names_match (a b : String) : Bool :=
  casefoldStr (clean_company_name a) == casefoldStr (clean_company_name b)

/-- One identifier of a candidate record: the value of its type tag
(ident.get of type then of value in the source) and its raw value. -/
structure RpoIdentifier where
  typeVal : Option String
  value : Option String
deriving DecidableEq

/-- One candidate record of the remote service: the values of its
fullNames entries (each possibly missing) and its identifiers. -/
structure RpoRecord where
  fullNames : List (Option String)
  identifiers : List RpoIdentifier
deriving DecidableEq

/-- The inner test of choose_best_record: does some full name of the
record match the query name? -/
def record_has_exact_match (rec : RpoRecord) (query_name : String) : Bool :=
  rec.fullNames.any (fun fn => names_match (fn.getD "") query_name)

/-- The scan of choose_best_record: the first record, in service order,
with an exactly matching full name. -/
def findExactMatch : List RpoRecord → String → Option RpoRecord
  | [], _ => none
  | rec :: rest, q =>
    if record_has_exact_match rec q then some rec else findExactMatch rest q

/-- choose_best_record from the source: the first exactly matching
record with strategy "exact", else the first record with strategy
"first", and (none, "first") on an empty list. -/
def choose_best_record (records : List RpoRecord) (query_name : String) :
    Option RpoRecord × String :=
  match findExactMatch records query_name with
  | some rec => (some rec, "exact")
  | none =>
    match records with
    | [] => (none, "first")
    | rec :: _ => (some rec, "first")

/-- extract_ico_from_record from the source: prefer the first identifier
whose case-folded type tag is ico, ičo or ico_sk and whose value
normalizes to 8 digits (tag "ICO"); otherwise the first identifier whose
value normalizes (tag "Other"); otherwise none with tag "Other". -/
def extract_ico_from_record (record : RpoRecord) : Option String × String :=
  match record.identifiers.find? (fun ident =>
      let tv := casefoldStr (ident.typeVal.getD "")
      (tv == "ico" || tv == "ičo" || tv == "ico_sk") && (normalize_ico ident.value).isSome) with
  | some ident => (normalize_ico ident.value, "ICO")
  | none =>
    match record.identifiers.find? (fun ident => (normalize_ico ident.value).isSome) with
    | some ident => (normalize_ico ident.value, "Other")
    | none => (none, "Other")

/-- One remote response, as rpo_lookup_detail observes it: a 200 status
with a parsed results list, or a transient failure (non-200 status or a
RequestException), which the source treats identically. -/
inductive RpoResponse
  | ok (records : List RpoRecord)
  | fail
deriving DecidableEq

/-- The per-name result dictionary built by rpo_lookup_detail. -/
structure LookupResult where
  ico : Option String
  usedQueryVariant : Option String
  matchedFullName : Option String
  identifierType : Option String
  matchStrategy : Option String
  notes : Option String
deriving DecidableEq

/-- The loop of rpo_lookup_detail over best.fullNames that computes
matched_name: each truthy value overwrites the accumulator. -/
def matched_full_name (fullNames : List (Option String)) : Option String :=
  fullNames.foldl
    (fun acc fn =>
      match fn with
      | some v => if v == "" then acc else some v
      | none => acc)
    none

/-- The result dictionary returned by rpo_lookup_detail when a best
record was chosen for a variant: identifier and type from
extract_ico_from_record, the matched full name, and a note exactly when
no valid identifier was found. -/
def decisive_result (best : RpoRecord) (match_strategy variant : String) : LookupResult :=
  let extracted := extract_ico_from_record best
  { ico := extracted.1
    usedQueryVariant := some variant
    matchedFullName := matched_full_name best.fullNames
    identifierType := some extracted.2
    matchStrategy := some match_strategy
    notes := if extracted.1.isSome then none else some "Identifiers without valid ICO" }

/-- The 200-status branch of rpo_lookup_detail: an empty record list
breaks out of the retry loop with no result, a missing best record does
the same, and otherwise the function returns the decisive result. -/
def handle_success (records : List RpoRecord) (variant : String) : Option LookupResult :=
  if records.isEmpty then none
  else
    match choose_best_record records variant with
    | (none, _) => none
    | (some best, strategy) => some (decisive_result best strategy variant)

/-- The retry loop of rpo_lookup_detail for one variant, instrumented:
given the service oracle, the variant, the current attempt number and
the remaining attempts, it returns the decisive result if any, the list
of attempt numbers at which a remote call was issued, and the list of
backoff sleep durations performed. A 200 response never sleeps and ends
the loop (decisively or by breaking); a transient failure sleeps
RETRY_SLEEP_BASE times the attempt number and retries. -/
def attempt_loop (svc : String → Nat → RpoResponse) (variant : String) :
    Nat → Nat → Option LookupResult × List Nat × List ℚ
  | _, 0 => (none, [], [])
  | attempt, r + 1 =>
    match svc variant attempt with
    | .ok records => (handle_success records variant, [attempt], [])
    | .fail =>
      let rest := attempt_loop svc variant (attempt + 1) r
      (rest.1, attempt :: rest.2.1, (RETRY_SLEEP_BASE * attempt) :: rest.2.2)

/-- The result dictionary returned by rpo_lookup_detail when every
variant was exhausted without a decisive outcome. -/
def not_found_result (variants : List String) : LookupResult :=
  { ico := none
    usedQueryVariant := variants.head?
    matchedFullName := none
    identifierType := none
    matchStrategy := none
    notes := some "Not found after variants/retries" }

/-- The outer loop of rpo_lookup_detail over the query variants,
instrumented with the calls issued (variant, attempt) and the sleeps
performed (variant, duration). -/
def variant_loop (svc : String → Nat → RpoResponse) (variants_all : List String) :
    List String → LookupResult × List (String × Nat) × List (String × ℚ)
  | [] => (not_found_result variants_all, [], [])
  | v :: rest =>
    let attempted := attempt_loop svc v 1 RETRY_COUNT
    let callsTagged := attempted.2.1.map (fun a => (v, a))
    let sleepsTagged := attempted.2.2.map (fun q => (v, q))
    match attempted.1 with
    | some r => (r, callsTagged, sleepsTagged)
    | none =>
      let cont := variant_loop svc variants_all rest
      (cont.1, callsTagged ++ cont.2.1, sleepsTagged ++ cont.2.2)

/-- rpo_lookup_detail from the source, instrumented: generate the query
variants and run the variant loop against the service oracle. -/
def rpo_lookup_detail (svc : String → Nat → RpoResponse) (company_name : String) :
    LookupResult × List (String × Nat) × List (String × ℚ) :=
  let variants := generate_query_variants company_name
  variant_loop svc variants variants

/-- The rate limiter state of RateLimiter and ThreadSafeRateLimiter:
the per-minute ceiling, the monotonic timestamp at which the current
window started, and the number of acquisitions admitted in the current
window. -/
structure RateLimiter where
  max_per_min : Nat
  window_start : ℚ
  count : Nat
deriving DecidableEq

/-- acquire, as serialized by the limiter lock: called at monotonic
time now, it resets the window when 60 seconds have elapsed, sleeps to
the end of the window when the count has reached the ceiling (resetting
the window to the wake-up time), and admits the call. Returns the new
state and the completion time of the call (now plus any sleep). -/
def RateLimiter.acquire (s : RateLimiter) (now : ℚ) : RateLimiter × ℚ :=
  let elapsed := now - s.window_start
  let s1 := if elapsed ≥ 60 then { s with window_start := now, count := 0 } else s
  if s1.count ≥ s1.max_per_min then
    let sleep_for := max 0 (60 - elapsed)
    let t := now + sleep_for
    ({ s1 with window_start := t, count := 1 }, t)
  else
    ({ s1 with count := s1.count + 1 }, now)

/-- A run of the rate limiter over a list of lock-acquisition times:
for each call, the completion time and the window start at completion. -/
def rlRun (s : RateLimiter) : List ℚ → List (ℚ × ℚ)
  | [] => []
  | now :: rest =>
    let step := s.acquire now
    (step.2, step.1.window_start) :: rlRun step.1 rest

/-- The physical constraint the limiter lock imposes on a call trace:
each caller reaches the state mutation no earlier than the previous
call's completion (the lock is held through the sleep), and no earlier
than the given lower bound. -/
def ChainedCalls (s : RateLimiter) (prev : ℚ) : List ℚ → Prop
  | [] => True
  | now :: rest => prev ≤ now ∧ ChainedCalls (s.acquire now).1 (s.acquire now).2 rest

/-- A valid trace starts no earlier than the construction time of the
limiter, which initializes window_start. -/
def ValidTrace (s : RateLimiter) (times : List ℚ) : Prop :=
  ChainedCalls s s.window_start times

/-- A task outcome at the future boundary of the orchestrator:
fut.result() either returns a lookup result or raises, in which case the
source stores an exception note. -/
def TaskResult := Except String LookupResult

/-- The parallel result lists built by process_with_progress, one slot
per input name. -/
structure ResultTable where
  icos : List (Option String)
  clean_names : List String
  used_variants : List (Option String)
  matched_fullnames : List (Option String)
  id_types : List (Option String)
  match_strats : List (Option String)
  notes : List (Option String)
deriving DecidableEq

/-- The initial result table of process_with_progress: every slot None,
and clean names precomputed with clean_company_name. -/
def initTable (names : List String) : ResultTable :=
  { icos := List.replicate names.length none
    clean_names := names.map clean_company_name
    used_variants := List.replicate names.length none
    matched_fullnames := List.replicate names.length none
    id_types := List.replicate names.length none
    match_strats := List.replicate names.length none
    notes := List.replicate names.length none }

/-- The body of the as_completed loop of process_with_progress: on a
normal task result the slot at the task's index receives the result
fields; on an exception only the note slot is written. -/
def applyCompletion (task : Nat → TaskResult) (tbl : ResultTable) (i : Nat) : ResultTable :=
  match task i with
  | .ok res =>
    { tbl with
        icos := tbl.icos.set i res.ico
        used_variants := tbl.used_variants.set i res.usedQueryVariant
        matched_fullnames := tbl.matched_fullnames.set i res.matchedFullName
        id_types := tbl.id_types.set i res.identifierType
        match_strats := tbl.match_strats.set i res.matchStrategy
        notes := tbl.notes.set i res.notes }
  | .error e =>
    { tbl with notes := tbl.notes.set i (some ("Exception: " ++ e)) }

/-- The indices of batch k: range(offset, min(offset + BATCH_SIZE, n))
for offset = k * BATCH_SIZE. -/
def batchIdxs (n k : Nat) : List Nat :=
  List.range' (k * BATCH_SIZE) (min (k * BATCH_SIZE + BATCH_SIZE) n - k * BATCH_SIZE)

/-- The batches of process_with_progress, in submission order. -/
def allBatches (n : Nat) : List (List Nat) :=
  (List.range ((n + BATCH_SIZE - 1) / BATCH_SIZE)).map (batchIdxs n)

/-- process_with_progress, with worker scheduling made explicit: the
completion orders are one list of indices per batch (the order in which
as_completed yields the futures); each completion writes the slots that
its task owns. -/
def process_with_progress (task : Nat → TaskResult) (names : List String)
    (orders : List (List Nat)) : ResultTable :=
  orders.foldl (fun tbl order => order.foldl (applyCompletion task) tbl) (initTable names)

/-- The completion-order hypothesis: within each batch the futures
complete in some permutation of the batch's submitted indices; batches
run strictly in sequence. -/
def OrdersValid (n : Nat) (orders : List (List Nat)) : Prop :=
  List.Forall₂ List.Perm orders (allBatches n)

/-- The per-item outcome read back from the result table. -/
def resultAt (tbl : ResultTable) (i : Nat) : LookupResult :=
  { ico := tbl.icos.getD i none
    usedQueryVariant := tbl.used_variants.getD i none
    matchedFullName := tbl.matched_fullnames.getD i none
    identifierType := tbl.id_types.getD i none
    matchStrategy := tbl.match_strats.getD i none
    notes := tbl.notes.getD i none }

/-- The outcome the source stores for index i: the task's result, or a
none outcome recording the exception. -/
def expectedResult (task : Nat → TaskResult) (i : Nat) : LookupResult :=
  match task i with
  | .ok r => r
  | .error e =>
    { ico := none, usedQueryVariant := none, matchedFullName := none,
      identifierType := none, matchStrategy := none,
      notes := some ("Exception: " ++ e) }

/-- The all-absent outcome: the content of an untouched result slot. -/
def emptyLookupResult : LookupResult :=
  { ico := none, usedQueryVariant := none, matchedFullName := none,
    identifierType := none, matchStrategy := none, notes := none }

/-- The seven result lists of process_with_progress all have n slots. -/
def TableLen (tbl : ResultTable) (n : Nat) : Prop :=
  tbl.icos.length = n ∧ tbl.clean_names.length = n ∧ tbl.used_variants.length = n ∧
    tbl.matched_fullnames.length = n ∧ tbl.id_types.length = n ∧
    tbl.match_strats.length = n ∧ tbl.notes.length = n

/-- The task function of process_with_progress when no task raises: each
index resolves its own name through rpo_lookup_detail. -/
def lookupTask (svc : String → Nat → RpoResponse) (names : List String)
    (i : Nat) : TaskResult :=
  Except.ok (rpo_lookup_detail svc (names.getD i "")).1

end RPO

/-- Concrete record used to exercise the record matcher: one exact full
name and one registry identifier. -/
def acmeRecord : RPO.RpoRecord :=
  ⟨[some "Acme Ltd"], [⟨some "ico", some "12345678"⟩]⟩

/-- Concrete second record with a non-matching full name. -/
def otherRecord : RPO.RpoRecord :=
  ⟨[some "Other"], [⟨some "ico", some "87654321"⟩]⟩

/-- Concrete record whose matching full name is not the last non-empty
entry of its fullNames list. -/
def lastNameRecord : RPO.RpoRecord :=
  ⟨[some "Acme Ltd", some "", none, some "Acme Limited"],
   [⟨some "ico", some "12345678"⟩]⟩

/-
Theorems. Each claim Cn has one main theorem; corrected claims also have
a counterexample theorem refuting the original wording.
-/

/-- Claim C6, counterexample: the input 123-45.678 strips to eight
digits, so the code accepts it (the claim says it is rejected). -/
theorem C6_counterexample :
    RPO.normalize_ico (some "123-45.678") = some "12345678"
    ∧ (RPO.digitsOf "123-45.678").length = 8 := by
  decide

/-- Claim C6 (amended): identifier normalization returns the stripped
digit string exactly when 8 digit characters remain after removing
non-digits, and absent otherwise; in particular both 123-45.678 (which
strips to 8 digits) and 12345678 are accepted. -/
theorem C6_normalize_ico :
    (∀ s : String, RPO.normalize_ico (some s)
        = if (RPO.digitsOf s).length = 8 then some (RPO.digitsOf s) else none)
    ∧ RPO.normalize_ico (some "12345678") = some "12345678"
    ∧ RPO.normalize_ico (some "123-45.678") = some "12345678" := by
  refine ⟨fun s => ?_, by decide, by decide⟩
  by_cases h : s = ""
  · subst h; decide
  · simp [RPO.normalize_ico, h]

/-- Claim C7: an 8-digit identifier passes is_valid_ico exactly when its
8th digit equals the check value of the spec formula (weights 8..2 over
the first seven digits, mod 11, mapping 0 to 1, 1 to 0, else 11 - mod);
and the checksum is advisory: any string stripping to 8 digits is still
accepted by the fallback normalization path. -/
theorem C7_checksum_formula_and_advisory :
    (∀ s : String, s.data.all Char.isDigit = true → s.length = 8 →
      (Chatgpt.is_valid_ico s = true ↔
        Chatgpt.eighthDigit s = Chatgpt.specChecksumDigit s))
    ∧ (∀ s : String, (RPO.digitsOf s).length = 8 →
      Chatgpt.normalize_ico (some s) = some (RPO.digitsOf s)) := by
  constructor
  · intro s hdig hlen
    obtain ⟨l⟩ := s
    have h8 : l.length = 8 := hlen
    rcases l with _ | ⟨c0, _ | ⟨c1, _ | ⟨c2, _ | ⟨c3, _ | ⟨c4, _ | ⟨c5, _ | ⟨c6, _ | ⟨c7, _ | ⟨c8, l⟩⟩⟩⟩⟩⟩⟩⟩⟩ <;>
      simp only [List.length_cons, List.length_nil] at h8 <;> try omega
    have hc : ((String.mk [c0,c1,c2,c3,c4,c5,c6,c7]).length == 8
        && (String.mk [c0,c1,c2,c3,c4,c5,c6,c7]).data.all Char.isDigit) = true := by
      simp [String.length, hdig]
    rw [Chatgpt.is_valid_ico, if_pos hc]
    simp only [beq_iff_eq, Chatgpt.eighthDigit, Chatgpt.specChecksumDigit]
    have hsum : (List.map (fun dw => dw.1 * dw.2)
        ((List.take 7 (List.map (fun c => c.toNat - 48) [c0,c1,c2,c3,c4,c5,c6,c7])).zip
          [8, 7, 6, 5, 4, 3, 2])).sum
        = (c0.toNat - 48) * 8 + ((c1.toNat - 48) * 7 + ((c2.toNat - 48) * 6 +
          ((c3.toNat - 48) * 5 + ((c4.toNat - 48) * 4 + ((c5.toNat - 48) * 3 +
          ((c6.toNat - 48) * 2 + 0)))))) := rfl
    have e1 : (List.map (fun c => c.toNat - 48) [c0,c1,c2,c3,c4,c5,c6,c7]).getD 7 0
        = c7.toNat - 48 := rfl
    have e2 : [c0,c1,c2,c3,c4,c5,c6,c7].getD 7 '0' = c7 := rfl
    have e3 : [c0,c1,c2,c3,c4,c5,c6,c7].getD 0 '0' = c0 := rfl
    have e4 : [c0,c1,c2,c3,c4,c5,c6,c7].getD 1 '0' = c1 := rfl
    have e5 : [c0,c1,c2,c3,c4,c5,c6,c7].getD 2 '0' = c2 := rfl
    have e6 : [c0,c1,c2,c3,c4,c5,c6,c7].getD 3 '0' = c3 := rfl
    have e7 : [c0,c1,c2,c3,c4,c5,c6,c7].getD 4 '0' = c4 := rfl
    have e8 : [c0,c1,c2,c3,c4,c5,c6,c7].getD 5 '0' = c5 := rfl
    have e9 : [c0,c1,c2,c3,c4,c5,c6,c7].getD 6 '0' = c6 := rfl
    rw [hsum, e1, e2, e3, e4, e5, e6, e7, e8, e9]
    have hS : (c0.toNat - 48) * 8 + ((c1.toNat - 48) * 7 + ((c2.toNat - 48) * 6 +
          ((c3.toNat - 48) * 5 + ((c4.toNat - 48) * 4 + ((c5.toNat - 48) * 3 +
          ((c6.toNat - 48) * 2 + 0))))))
        = 8 * (c0.toNat - 48) + 7 * (c1.toNat - 48) + 6 * (c2.toNat - 48) +
          5 * (c3.toNat - 48) + 4 * (c4.toNat - 48) + 3 * (c5.toNat - 48) +
          2 * (c6.toNat - 48) := by omega
    rw [hS]
  · intro s hlen
    have hne : s ≠ "" := by
      intro h; subst h; simp [RPO.digitsOf] at hlen
    by_cases hval : Chatgpt.is_valid_ico (RPO.digitsOf s) = true
    · simp [Chatgpt.normalize_ico, hne, hlen, hval]
    · simp [Chatgpt.normalize_ico, hne, hlen, hval]

/-- Witness for C7 at the digit strings 12345679 (checksum test) and
12345678 (accepted despite failing the checksum). -/
theorem C7_witness :
    (Chatgpt.is_valid_ico "12345679" = true ↔
      Chatgpt.eighthDigit "12345679" = Chatgpt.specChecksumDigit "12345679")
    ∧ Chatgpt.normalize_ico (some "12345678") = some (RPO.digitsOf "12345678") :=
  ⟨C7_checksum_formula_and_advisory.1 "12345679" (by decide) (by decide),
   C7_checksum_formula_and_advisory.2 "12345678" (by decide)⟩

/-- Helper: the exact-match scan finds the first record whose full-name
list matches, skipping any earlier non-matching records. -/
theorem findExactMatch_split (q : String) :
    ∀ (pre : List RPO.RpoRecord) (rec : RPO.RpoRecord) (post : List RPO.RpoRecord),
      RPO.record_has_exact_match rec q = true →
      (∀ r ∈ pre, RPO.record_has_exact_match r q = false) →
      RPO.findExactMatch (pre ++ rec :: post) q = some rec := by
  intro pre
  induction pre with
  | nil => intro rec post h _; simp [RPO.findExactMatch, h]
  | cons a pre ih =>
    intro rec post h hpre
    have ha : RPO.record_has_exact_match a q = false := hpre a (by simp)
    simpa [RPO.findExactMatch, ha] using ih rec post h (fun r hr => hpre r (by simp [hr]))

/-- Helper: the exact-match scan returns none when no record matches. -/
theorem findExactMatch_none (q : String) :
    ∀ (records : List RPO.RpoRecord),
      (∀ r ∈ records, RPO.record_has_exact_match r q = false) →
      RPO.findExactMatch records q = none := by
  intro records
  induction records with
  | nil => intro _; rfl
  | cons a rest ih =>
    intro h
    have ha : RPO.record_has_exact_match a q = false := h a (by simp)
    simpa [RPO.findExactMatch, ha] using ih (fun r hr => h r (by simp [hr]))

/-- Claim C8: the first record, in service order, with an exactly
matching (cleaned, case-folded) full name is selected with strategy
"exact"; when no record matches, the first record is selected with
strategy "first"; the empty list yields (none, "first") because head? of
the empty list is none. -/
theorem C8_record_matcher (records : List RPO.RpoRecord) (q : String) :
    (∀ pre rec post, records = pre ++ rec :: post →
        RPO.record_has_exact_match rec q = true →
        (∀ r ∈ pre, RPO.record_has_exact_match r q = false) →
        RPO.choose_best_record records q = (some rec, "exact"))
    ∧ ((∀ r ∈ records, RPO.record_has_exact_match r q = false) →
        RPO.choose_best_record records q = (records.head?, "first")) := by
  constructor
  · intro pre rec post hsplit hrec hpre
    subst hsplit
    have h1 := findExactMatch_split q pre rec post hrec hpre
    simp [RPO.choose_best_record, h1]
  · intro h
    have h1 := findExactMatch_none q records h
    cases records with
    | nil => rfl
    | cons a rest => simp [RPO.choose_best_record, h1]

/-- Witness for C8: on the spec's example records, the query acme ltd
selects record 0 with strategy exact and the query nomatch selects
record 0 with strategy first. -/
theorem C8_witness :
    RPO.choose_best_record [acmeRecord, otherRecord] "acme ltd" = (some acmeRecord, "exact")
    ∧ RPO.choose_best_record [acmeRecord, otherRecord] "nomatch" = (some acmeRecord, "first") := by
  constructor
  · exact (C8_record_matcher [acmeRecord, otherRecord] "acme ltd").1
      [] acmeRecord [otherRecord] rfl (by decide) (by simp)
  · exact (C8_record_matcher [acmeRecord, otherRecord] "nomatch").2 (by decide)

/-- Helper: the matched-name fold keeps the last non-empty full-name
value. -/
theorem matched_full_name_getLast (l : List (Option String)) :
    RPO.matched_full_name l
      = ((l.filterMap id).filter (fun s => !(s == ""))).getLast? := by
  induction l using List.reverseRecOn with
  | nil => rfl
  | append_singleton xs x ih =>
    cases x with
    | none =>
      simpa [RPO.matched_full_name, List.foldl_append, List.filterMap_append] using ih
    | some v =>
      by_cases hv : v = ""
      · subst hv
        simpa [RPO.matched_full_name, List.foldl_append, List.filterMap_append] using ih
      · simp [RPO.matched_full_name, List.foldl_append, List.filterMap_append, hv]

/-- Claim C10: every decisive outcome reports as matched full name the
last entry with a non-empty value of the chosen record's full-name list. -/
theorem C10_matched_name_is_last_nonempty (records : List RPO.RpoRecord) (v : String)
    (out : RPO.LookupResult) (h : RPO.handle_success records v = some out) :
    ∃ best strategy, RPO.choose_best_record records v = (some best, strategy) ∧
      out.matchedFullName
        = ((best.fullNames.filterMap id).filter (fun s => !(s == ""))).getLast? := by
  unfold RPO.handle_success at h
  by_cases he : records.isEmpty = true
  · rw [if_pos he] at h; cases h
  · rw [if_neg he] at h
    cases hcb : RPO.choose_best_record records v with
    | mk ob strat =>
      rw [hcb] at h
      cases ob with
      | none => simp at h
      | some best =>
        simp only [Option.some.injEq] at h
        refine ⟨best, strat, rfl, ?_⟩
        rw [← h]
        simp [RPO.decisive_result, matched_full_name_getLast]

/-- Witness for C10: a record whose exact-matching name is first but
whose last non-empty name is a different string; the outcome reports the
latter. -/
theorem C10_witness :
    ∃ best strategy,
      RPO.choose_best_record [lastNameRecord] "acme ltd" = (some best, strategy) ∧
      (RPO.decisive_result lastNameRecord "exact" "acme ltd").matchedFullName
        = ((best.fullNames.filterMap id).filter (fun s => !(s == ""))).getLast? :=
  C10_matched_name_is_last_nonempty [lastNameRecord] "acme ltd"
    (RPO.decisive_result lastNameRecord "exact" "acme ltd") (by decide)

/-- Claim C3, counterexample: for the blank input, variant generation
yields no variants and the lookup issues no remote call, but the note is
Not found after variants/retries, not the claimed empty input. -/
theorem C3_counterexample :
    RPO.generate_query_variants "" = []
    ∧ (RPO.rpo_lookup_detail (fun _ _ => RPO.RpoResponse.fail) "").1.notes
        = some "Not found after variants/retries"
    ∧ (RPO.rpo_lookup_detail (fun _ _ => RPO.RpoResponse.fail) "").1.notes
        ≠ some "empty input"
    ∧ (RPO.rpo_lookup_detail (fun _ _ => RPO.RpoResponse.fail) "").2.1 = [] := by
  decide

/-- Claim C3 (amended): for every input whose variant generation yields
no variants, the lookup returns immediately a none outcome whose note is
Not found after variants/retries, and issues no remote call. -/
theorem C3_blank_input (svc : String → Nat → RPO.RpoResponse) (name : String)
    (h : RPO.generate_query_variants name = []) :
    RPO.rpo_lookup_detail svc name
      = ({ ico := none, usedQueryVariant := none, matchedFullName := none,
           identifierType := none, matchStrategy := none,
           notes := some "Not found after variants/retries" }, [], []) := by
  unfold RPO.rpo_lookup_detail
  rw [h]
  simp [RPO.variant_loop, RPO.not_found_result]

/-- Witness for C3 at a whitespace-only input. -/
theorem C3_witness :
    RPO.rpo_lookup_detail (fun _ _ => RPO.RpoResponse.ok []) "   "
      = ({ ico := none, usedQueryVariant := none, matchedFullName := none,
           identifierType := none, matchStrategy := none,
           notes := some "Not found after variants/retries" }, [], []) :=
  C3_blank_input (fun _ _ => RPO.RpoResponse.ok []) "   " (by decide)

/-- Claim C4: a variant answered with HTTP 200 and an empty result list
is called exactly once, performs no backoff sleep, and the lookup moves
on to the next variant. -/
theorem C4_zero_result_not_retried (svc : String → Nat → RPO.RpoResponse) (v : String)
    (h : svc v 1 = RPO.RpoResponse.ok []) :
    RPO.attempt_loop svc v 1 RPO.RETRY_COUNT = (none, [1], [])
    ∧ ∀ va rest,
        (RPO.variant_loop svc va (v :: rest)).1 = (RPO.variant_loop svc va rest).1
        ∧ (RPO.variant_loop svc va (v :: rest)).2.1
            = (v, 1) :: (RPO.variant_loop svc va rest).2.1
        ∧ (RPO.variant_loop svc va (v :: rest)).2.2 = (RPO.variant_loop svc va rest).2.2 := by
  have h1 : RPO.attempt_loop svc v 1 RPO.RETRY_COUNT = (none, [1], []) := by
    show RPO.attempt_loop svc v 1 3 = _
    simp [RPO.attempt_loop, h, RPO.handle_success]
  refine ⟨h1, fun va rest => ?_⟩
  simp [RPO.variant_loop, h1]

/-- Witness for C4 with a service that confirms zero results. -/
theorem C4_witness :
    RPO.attempt_loop (fun _ _ => RPO.RpoResponse.ok []) "Acme" 1 RPO.RETRY_COUNT
      = (none, [1], [])
    ∧ (RPO.variant_loop (fun _ _ => RPO.RpoResponse.ok []) ["Acme"] ["Acme"]).2.1
        = [("Acme", 1)] := by
  have h := C4_zero_result_not_retried (fun _ _ => RPO.RpoResponse.ok []) "Acme" rfl
  refine ⟨h.1, ?_⟩
  rw [(h.2 ["Acme"] []).2.1]
  rfl

/-- Helper: the retry loop issues at most the remaining number of
attempts. -/
theorem attempt_loop_calls_le (svc : String → Nat → RPO.RpoResponse) (v : String) :
    ∀ (r a : Nat), (RPO.attempt_loop svc v a r).2.1.length ≤ r := by
  intro r
  induction r with
  | zero => intro a; simp [RPO.attempt_loop]
  | succ r ih =>
    intro a
    cases hs : svc v a with
    | ok records => simp [RPO.attempt_loop, hs]
    | fail =>
      have h := ih (a + 1)
      simp only [RPO.attempt_loop, hs, List.length_cons]
      omega

/-- Helper: the attempt numbers of the calls issued by the retry loop
are strictly increasing and bounded below by the starting attempt. -/
theorem attempt_loop_calls_incr (svc : String → Nat → RPO.RpoResponse) (v : String) :
    ∀ (r a : Nat), (RPO.attempt_loop svc v a r).2.1.Pairwise (· < ·)
      ∧ ∀ k ∈ (RPO.attempt_loop svc v a r).2.1, a ≤ k := by
  intro r
  induction r with
  | zero => intro a; simp [RPO.attempt_loop]
  | succ r ih =>
    intro a
    cases hs : svc v a with
    | ok records => simp [RPO.attempt_loop, hs]
    | fail =>
      obtain ⟨hp, hb⟩ := ih (a + 1)
      simp only [RPO.attempt_loop, hs]
      constructor
      · exact List.Pairwise.cons (fun k hk => by have := hb k hk; omega) hp
      · intro k hk
        rcases List.mem_cons.mp hk with h | h
        · omega
        · have := hb k h; omega

/-- Helper: the backoff sleeps are exactly RETRY_SLEEP_BASE times the
attempt number of each failed call, in call order. -/
theorem attempt_loop_sleeps_eq (svc : String → Nat → RPO.RpoResponse) (v : String) :
    ∀ (r a : Nat), (RPO.attempt_loop svc v a r).2.2
      = ((RPO.attempt_loop svc v a r).2.1.filter
          (fun k => svc v k == RPO.RpoResponse.fail)).map
          (fun (k : Nat) => RPO.RETRY_SLEEP_BASE * (k : ℚ)) := by
  intro r
  induction r with
  | zero => intro a; simp [RPO.attempt_loop]
  | succ r ih =>
    intro a
    cases hs : svc v a with
    | ok records => simp [RPO.attempt_loop, hs]
    | fail =>
      have h := ih (a + 1)
      simp only [RPO.attempt_loop, hs]
      simp [List.filter_cons, hs, h]

/-- Claim C5: within one variant each transient failure at attempt k is
followed by a sleep of RETRY_SLEEP_BASE times k (the sleeps are exactly
the backoffs of the failed calls, in order), at most RETRY_COUNT calls
are made, successive sleeps are strictly increasing, and when every
attempt fails the loop makes exactly calls 1,2,3 with their three
increasing sleeps, then falls through to the next variant. -/
theorem C5_linear_backoff (svc : String → Nat → RPO.RpoResponse) (v : String) :
    (RPO.attempt_loop svc v 1 RPO.RETRY_COUNT).2.1.length ≤ RPO.RETRY_COUNT
    ∧ (RPO.attempt_loop svc v 1 RPO.RETRY_COUNT).2.2
        = ((RPO.attempt_loop svc v 1 RPO.RETRY_COUNT).2.1.filter
            (fun k => svc v k == RPO.RpoResponse.fail)).map
            (fun (k : Nat) => RPO.RETRY_SLEEP_BASE * (k : ℚ))
    ∧ (RPO.attempt_loop svc v 1 RPO.RETRY_COUNT).2.2.Pairwise (· < ·)
    ∧ ((∀ k, 1 ≤ k → k ≤ RPO.RETRY_COUNT → svc v k = RPO.RpoResponse.fail) →
        RPO.attempt_loop svc v 1 RPO.RETRY_COUNT
          = (none, [1, 2, 3],
              [RPO.RETRY_SLEEP_BASE * 1, RPO.RETRY_SLEEP_BASE * 2, RPO.RETRY_SLEEP_BASE * 3])
        ∧ ∀ va rest,
            (RPO.variant_loop svc va (v :: rest)).1 = (RPO.variant_loop svc va rest).1) := by
  refine ⟨attempt_loop_calls_le svc v RPO.RETRY_COUNT 1,
    attempt_loop_sleeps_eq svc v RPO.RETRY_COUNT 1, ?_, ?_⟩
  · rw [attempt_loop_sleeps_eq svc v RPO.RETRY_COUNT 1]
    have hpc : (RPO.attempt_loop svc v 1 RPO.RETRY_COUNT).2.1.Pairwise (· < ·) :=
      (attempt_loop_calls_incr svc v RPO.RETRY_COUNT 1).1
    have hsub : ((RPO.attempt_loop svc v 1 RPO.RETRY_COUNT).2.1.filter
        (fun k => svc v k == RPO.RpoResponse.fail)).Sublist
        ((RPO.attempt_loop svc v 1 RPO.RETRY_COUNT).2.1) := List.filter_sublist _
    have hpf := List.Pairwise.sublist hsub hpc
    refine List.Pairwise.map _ (fun a b hab => ?_) hpf
    have hq : (a : ℚ) < b := by exact_mod_cast hab
    have hpos : (0 : ℚ) < RPO.RETRY_SLEEP_BASE := by norm_num [RPO.RETRY_SLEEP_BASE]
    exact mul_lt_mul_of_pos_left hq hpos
  · intro hfail
    have h1 := hfail 1 (by norm_num) (by norm_num [RPO.RETRY_COUNT])
    have h2 := hfail 2 (by norm_num) (by norm_num [RPO.RETRY_COUNT])
    have h3 := hfail 3 (by norm_num) (by norm_num [RPO.RETRY_COUNT])
    have hal : RPO.attempt_loop svc v 1 RPO.RETRY_COUNT
        = (none, [1, 2, 3],
            [RPO.RETRY_SLEEP_BASE * 1, RPO.RETRY_SLEEP_BASE * 2, RPO.RETRY_SLEEP_BASE * 3]) := by
      show RPO.attempt_loop svc v 1 3 = _
      simp [RPO.attempt_loop, h1, h2, h3]
    refine ⟨hal, fun va rest => ?_⟩
    simp [RPO.variant_loop, hal]

/-- Witness for C5 with a service that fails every attempt. -/
theorem C5_witness :
    RPO.attempt_loop (fun _ _ => RPO.RpoResponse.fail) "Acme Ltd" 1 RPO.RETRY_COUNT
      = (none, [1, 2, 3],
          [RPO.RETRY_SLEEP_BASE * 1, RPO.RETRY_SLEEP_BASE * 2, RPO.RETRY_SLEEP_BASE * 3])
    ∧ (RPO.attempt_loop (fun _ _ => RPO.RpoResponse.fail) "Acme Ltd" 1
        RPO.RETRY_COUNT).2.2.Pairwise (· < ·) :=
  ⟨((C5_linear_backoff (fun _ _ => RPO.RpoResponse.fail) "Acme Ltd").2.2.2
      (fun _ _ _ => rfl)).1,
   (C5_linear_backoff (fun _ _ => RPO.RpoResponse.fail) "Acme Ltd").2.2.1⟩

/-- Helper: setting one slot leaves the value read at another index
unchanged. -/
theorem getD_set_ne {α : Type} (a d : α) (l : List α) {i j : Nat} (h : i ≠ j) :
    (l.set i a).getD j d = l.getD j d := by
  simp [List.getD_eq_getElem?_getD, List.getElem?_set_ne h]

/-- Helper: setting a slot that is in range stores the value. -/
theorem getD_set_self {α : Type} (a d : α) (l : List α) {i : Nat} (h : i < l.length) :
    (l.set i a).getD i d = a := by
  simp [List.getD_eq_getElem?_getD, List.getElem?_set_self h]

/-- Helper: a completion for another index does not change the outcome
read back at index i. -/
theorem resultAt_applyCompletion_ne (task : Nat → RPO.TaskResult) (tbl : RPO.ResultTable)
    {i j : Nat} (h : j ≠ i) :
    RPO.resultAt (RPO.applyCompletion task tbl j) i = RPO.resultAt tbl i := by
  cases htj : task j with
  | ok r => simp [RPO.applyCompletion, htj, RPO.resultAt, getD_set_ne, h]
  | error e => simp [RPO.applyCompletion, htj, RPO.resultAt, getD_set_ne, h]

/-- Helper: folding completions over indices that avoid i does not
change the outcome read back at i. -/
theorem resultAt_fold_not_mem (task : Nat → RPO.TaskResult) :
    ∀ (l : List Nat) (tbl : RPO.ResultTable) (i : Nat), i ∉ l →
      RPO.resultAt (l.foldl (RPO.applyCompletion task) tbl) i = RPO.resultAt tbl i := by
  intro l
  induction l with
  | nil => intro tbl i _; rfl
  | cons j rest ih =>
    intro tbl i hi
    have hj : j ≠ i := fun hji => hi (hji ▸ List.mem_cons_self j rest)
    rw [List.foldl_cons, ih _ i (fun hmem => hi (List.mem_cons_of_mem j hmem)),
      resultAt_applyCompletion_ne task tbl hj]

/-- Helper: one completion preserves the slot counts of the table. -/
theorem tableLen_applyCompletion (task : Nat → RPO.TaskResult) (tbl : RPO.ResultTable)
    (j n : Nat) (h : RPO.TableLen tbl n) :
    RPO.TableLen (RPO.applyCompletion task tbl j) n := by
  obtain ⟨h1, h2, h3, h4, h5, h6, h7⟩ := h
  cases htj : task j <;> simp [RPO.applyCompletion, RPO.TableLen, htj, *]

/-- Helper: folding completions preserves the slot counts. -/
theorem tableLen_fold (task : Nat → RPO.TaskResult) :
    ∀ (l : List Nat) (tbl : RPO.ResultTable) (n : Nat), RPO.TableLen tbl n →
      RPO.TableLen (l.foldl (RPO.applyCompletion task) tbl) n := by
  intro l
  induction l with
  | nil => intro tbl n h; exact h
  | cons j rest ih =>
    intro tbl n h
    exact ih _ n (tableLen_applyCompletion task tbl j n h)

/-- Helper: an untouched slot of the initial table reads back as the
all-absent outcome. -/
theorem resultAt_init (names : List String) (i : Nat) :
    RPO.resultAt (RPO.initTable names) i = RPO.emptyLookupResult := by
  by_cases hi : i < names.length <;>
    simp [RPO.resultAt, RPO.initTable, RPO.emptyLookupResult,
      List.getD_eq_getElem?_getD, List.getElem?_replicate, hi]

/-- Helper: after folding over a list of completion indices in which i
occurs exactly once, slot i holds the outcome the source stores for it. -/
theorem resultAt_fold_write (task : Nat → RPO.TaskResult) :
    ∀ (l : List Nat) (tbl : RPO.ResultTable) (n i : Nat),
      RPO.TableLen tbl n → i < n → RPO.resultAt tbl i = RPO.emptyLookupResult →
      l.count i = 1 →
      RPO.resultAt (l.foldl (RPO.applyCompletion task) tbl) i
        = RPO.expectedResult task i := by
  intro l
  induction l with
  | nil => intro tbl n i _ _ _ hc; simp at hc
  | cons j rest ih =>
    intro tbl n i hlen hi hempty hc
    rw [List.foldl_cons]
    by_cases hj : j = i
    · subst hj
      have hzero : rest.count j = 0 := by
        have hcc : List.count j (j :: rest) = List.count j rest + 1 :=
          List.count_cons_self j rest
        omega
      have hnm : j ∉ rest := List.count_eq_zero.mp hzero
      rw [resultAt_fold_not_mem task rest _ j hnm]
      obtain ⟨h1, h2, h3, h4, h5, h6, h7⟩ := hlen
      have e1 := congrArg RPO.LookupResult.ico hempty
      have e2 := congrArg RPO.LookupResult.usedQueryVariant hempty
      have e3 := congrArg RPO.LookupResult.matchedFullName hempty
      have e4 := congrArg RPO.LookupResult.identifierType hempty
      have e5 := congrArg RPO.LookupResult.matchStrategy hempty
      simp only [RPO.resultAt, RPO.emptyLookupResult,
        List.getD_eq_getElem?_getD] at e1 e2 e3 e4 e5
      cases ht : task j with
      | ok r =>
        simp [RPO.applyCompletion, ht, RPO.resultAt, RPO.expectedResult,
          getD_set_self, h1, h3, h4, h5, h6, h7, hi]
      | error e =>
        simp [RPO.applyCompletion, ht, RPO.resultAt, RPO.expectedResult,
          getD_set_self, h7, hi, e1, e2, e3, e4, e5]
    · have hc2 : rest.count i = 1 := by
        have hcc := List.count_cons i j rest
        simp only [beq_iff_eq] at hcc
        rw [if_neg hj] at hcc
        omega
      refine ih _ n i (tableLen_applyCompletion task tbl j n hlen) hi ?_ hc2
      rw [resultAt_applyCompletion_ne task tbl hj, hempty]

/-- Helper: the flattened batches enumerate a prefix of the indices. -/
theorem batches_flatten_aux (n : Nat) :
    ∀ m, ((List.range m).map (RPO.batchIdxs n)).flatten
      = List.range' 0 (min (m * RPO.BATCH_SIZE) n) := by
  intro m
  induction m with
  | zero => simp
  | succ m ih =>
    rw [List.range_succ, List.map_append, List.flatten_append, ih]
    simp only [List.map_cons, List.map_nil, List.flatten_cons, List.flatten_nil,
      List.append_nil, RPO.batchIdxs]
    rcases le_or_lt n (m * RPO.BATCH_SIZE) with hc | hc
    · have h1 : min (m * RPO.BATCH_SIZE) n = n := by omega
      have h2 : min (m * RPO.BATCH_SIZE + RPO.BATCH_SIZE) n - m * RPO.BATCH_SIZE = 0 := by
        omega
      have h3 : min ((m + 1) * RPO.BATCH_SIZE) n = n := by
        have : (m + 1) * RPO.BATCH_SIZE = m * RPO.BATCH_SIZE + RPO.BATCH_SIZE :=
          Nat.succ_mul m RPO.BATCH_SIZE
        omega
      simp [h1, h2, h3]
    · have h1 : min (m * RPO.BATCH_SIZE) n = m * RPO.BATCH_SIZE := by omega
      rw [h1]
      have happ := List.range'_append_1 0 (m * RPO.BATCH_SIZE)
        (min (m * RPO.BATCH_SIZE + RPO.BATCH_SIZE) n - m * RPO.BATCH_SIZE)
      simp only [Nat.zero_add] at happ
      rw [happ]
      congr 1
      have : (m + 1) * RPO.BATCH_SIZE = m * RPO.BATCH_SIZE + RPO.BATCH_SIZE :=
        Nat.succ_mul m RPO.BATCH_SIZE
      omega

/-- Helper: the batches of a run enumerate exactly the input indices. -/
theorem allBatches_flatten (n : Nat) : (RPO.allBatches n).flatten = List.range n := by
  rw [RPO.allBatches, batches_flatten_aux]
  have hge : n ≤ (n + RPO.BATCH_SIZE - 1) / RPO.BATCH_SIZE * RPO.BATCH_SIZE := by
    simp only [RPO.BATCH_SIZE]
    omega
  have hmin : min ((n + RPO.BATCH_SIZE - 1) / RPO.BATCH_SIZE * RPO.BATCH_SIZE) n = n := by
    omega
  rw [hmin, List.range_eq_range']

/-- Helper: permuting each batch preserves how often each index occurs
in the flattened completion sequence. -/
theorem count_flatten_forall₂ {α : Type} [DecidableEq α] :
    ∀ {L1 L2 : List (List α)}, List.Forall₂ List.Perm L1 L2 →
      ∀ a : α, L1.flatten.count a = L2.flatten.count a := by
  intro L1 L2 h
  induction h with
  | nil => intro a; rfl
  | @cons l1 l2 r1 r2 hp _ ih =>
    intro a
    simp [List.count_append, hp.count_eq, ih a]

/-- Helper: under valid completion orders every index below n is
completed exactly once. -/
theorem orders_count (n : Nat) (orders : List (List Nat))
    (h : RPO.OrdersValid n orders) (i : Nat) (hi : i < n) :
    orders.flatten.count i = 1 := by
  rw [count_flatten_forall₂ h i, allBatches_flatten]
  exact List.count_eq_one_of_mem (List.nodup_range n) (List.mem_range.mpr hi)

/-- Claim C1: for every service oracle, input list and per-batch
completion orders, the orchestrator returns a table with exactly one
slot per input name, and slot i holds the outcome of resolving names i
through rpo_lookup_detail, regardless of the completion orders. -/
theorem C1_order_preserved (svc : String → Nat → RPO.RpoResponse) (names : List String)
    (orders : List (List Nat)) (h : RPO.OrdersValid names.length orders) :
    RPO.TableLen (RPO.process_with_progress (RPO.lookupTask svc names) names orders)
      names.length
    ∧ ∀ i, i < names.length →
        RPO.resultAt (RPO.process_with_progress (RPO.lookupTask svc names) names orders) i
          = (RPO.rpo_lookup_detail svc (names.getD i "")).1 := by
  have hfold : RPO.process_with_progress (RPO.lookupTask svc names) names orders
      = orders.flatten.foldl (RPO.applyCompletion (RPO.lookupTask svc names))
          (RPO.initTable names) := by
    rw [RPO.process_with_progress, List.foldl_flatten]
  have hlen0 : RPO.TableLen (RPO.initTable names) names.length := by
    simp [RPO.TableLen, RPO.initTable]
  constructor
  · rw [hfold]; exact tableLen_fold _ _ _ _ hlen0
  · intro i hi
    rw [hfold, resultAt_fold_write (RPO.lookupTask svc names) orders.flatten
      (RPO.initTable names) names.length i hlen0 hi (resultAt_init names i)
      (orders_count _ _ h i hi)]
    rfl

/-- Witness for C1: two names, one batch, completed in reverse order. -/
theorem C1_witness :
    RPO.resultAt (RPO.process_with_progress
      (RPO.lookupTask (fun _ _ => RPO.RpoResponse.fail) ["Acme", ""])
      ["Acme", ""] [[1, 0]]) 0
      = (RPO.rpo_lookup_detail (fun _ _ => RPO.RpoResponse.fail) "Acme").1 := by
  have hb : RPO.allBatches 2 = [[0, 1]] := by decide
  have h : RPO.OrdersValid 2 [[1, 0]] := by
    show List.Forall₂ List.Perm [[1, 0]] (RPO.allBatches 2)
    rw [hb]
    exact List.Forall₂.cons (by decide) List.Forall₂.nil
  exact (C1_order_preserved (fun _ _ => RPO.RpoResponse.fail) ["Acme", ""] [[1, 0]] h).2
    0 (by norm_num)

/-- Claim C9: when the task at index i raises, the run still returns
one outcome per input, slot i is the all-absent outcome whose note
records the exception, and every other slot holds its own task's
outcome. -/
theorem C9_exception_contained (task : Nat → RPO.TaskResult) (names : List String)
    (orders : List (List Nat)) (h : RPO.OrdersValid names.length orders)
    (i : Nat) (hi : i < names.length) (e : String) (he : task i = Except.error e) :
    RPO.resultAt (RPO.process_with_progress task names orders) i
      = { ico := none, usedQueryVariant := none, matchedFullName := none,
          identifierType := none, matchStrategy := none,
          notes := some ("Exception: " ++ e) }
    ∧ (∀ j, j < names.length →
        RPO.resultAt (RPO.process_with_progress task names orders) j
          = RPO.expectedResult task j)
    ∧ RPO.TableLen (RPO.process_with_progress task names orders) names.length := by
  have hfold : RPO.process_with_progress task names orders
      = orders.flatten.foldl (RPO.applyCompletion task) (RPO.initTable names) := by
    rw [RPO.process_with_progress, List.foldl_flatten]
  have hlen0 : RPO.TableLen (RPO.initTable names) names.length := by
    simp [RPO.TableLen, RPO.initTable]
  have hall : ∀ j, j < names.length →
      RPO.resultAt (RPO.process_with_progress task names orders) j
        = RPO.expectedResult task j := by
    intro j hj
    rw [hfold, resultAt_fold_write task orders.flatten (RPO.initTable names)
      names.length j hlen0 hj (resultAt_init names j) (orders_count _ _ h j hj)]
  refine ⟨?_, hall, ?_⟩
  · rw [hall i hi]
    simp [RPO.expectedResult, he]
  · rw [hfold]; exact tableLen_fold _ _ _ _ hlen0

/-- Witness for C9: the task at index 0 raises, index 1 still resolves. -/
theorem C9_witness :
    RPO.resultAt (RPO.process_with_progress
      (fun i => if i = 0 then Except.error "boom" else Except.ok RPO.emptyLookupResult)
      ["Acme", ""] [[1, 0]]) 0
      = { ico := none, usedQueryVariant := none, matchedFullName := none,
          identifierType := none, matchStrategy := none,
          notes := some ("Exception: " ++ "boom") }
    ∧ RPO.resultAt (RPO.process_with_progress
      (fun i => if i = 0 then Except.error "boom" else Except.ok RPO.emptyLookupResult)
      ["Acme", ""] [[1, 0]]) 1
      = RPO.expectedResult
          (fun i => if i = 0 then Except.error "boom" else Except.ok RPO.emptyLookupResult) 1 := by
  have hb : RPO.allBatches 2 = [[0, 1]] := by decide
  have h : RPO.OrdersValid 2 [[1, 0]] := by
    show List.Forall₂ List.Perm [[1, 0]] (RPO.allBatches 2)
    rw [hb]
    exact List.Forall₂.cons (by decide) List.Forall₂.nil
  have hc := C9_exception_contained
    (fun i => if i = 0 then Except.error "boom" else Except.ok RPO.emptyLookupResult)
    ["Acme", ""] [[1, 0]] h 0 (by norm_num) "boom" rfl
  exact ⟨hc.1, hc.2.1 1 (by norm_num)⟩

/-- Helper: one acquire under the physical invariants preserves the
ceiling, completes inside its (possibly renewed) window, never completes
before its call time, keeps the admitted count within the ceiling, and
either stays in the same window (incrementing the count) or jumps at
least one whole window forward (resetting the count to one). -/
theorem acquire_step (s : RPO.RateLimiter) (now : ℚ)
    (hws : s.window_start ≤ now) (hN : 1 ≤ s.max_per_min) (hc : s.count ≤ s.max_per_min) :
    (s.acquire now).1.max_per_min = s.max_per_min
    ∧ (s.acquire now).1.window_start ≤ (s.acquire now).2
    ∧ (s.acquire now).2 < (s.acquire now).1.window_start + 60
    ∧ now ≤ (s.acquire now).2
    ∧ 1 ≤ (s.acquire now).1.count ∧ (s.acquire now).1.count ≤ s.max_per_min
    ∧ ((s.acquire now).1.window_start = s.window_start
        ∧ (s.acquire now).1.count = s.count + 1 ∧ s.count < s.max_per_min
      ∨ s.window_start + 60 ≤ (s.acquire now).1.window_start
        ∧ (s.acquire now).1.count = 1) := by
  simp only [RPO.RateLimiter.acquire]
  split_ifs with h1 h2 h2
  · exfalso
    have h2x : s.max_per_min ≤ 0 := h2
    omega
  · refine ⟨rfl, le_refl _, ?_, le_refl _, ?_, ?_, Or.inr ⟨?_, rfl⟩⟩
    · show now < now + 60; linarith
    · show 1 ≤ 0 + 1; omega
    · show 0 + 1 ≤ s.max_per_min; omega
    · show s.window_start + 60 ≤ now; linarith
  · have hmr : (60 : ℚ) - (now - s.window_start) ≤ max 0 (60 - (now - s.window_start)) :=
      le_max_right _ _
    have hml : (0 : ℚ) ≤ max 0 (60 - (now - s.window_start)) := le_max_left _ _
    refine ⟨rfl, le_refl _, ?_, ?_, le_refl _, ?_, Or.inr ⟨?_, rfl⟩⟩
    · show now + max 0 (60 - (now - s.window_start))
        < now + max 0 (60 - (now - s.window_start)) + 60
      linarith
    · show now ≤ now + max 0 (60 - (now - s.window_start)); linarith
    · show 1 ≤ s.max_per_min; omega
    · show s.window_start + 60 ≤ now + max 0 (60 - (now - s.window_start)); linarith
  · push_neg at h1 h2
    refine ⟨rfl, hws, ?_, le_refl _, ?_, ?_, Or.inl ⟨rfl, rfl, h2⟩⟩
    · show now < s.window_start + 60; linarith
    · show 1 ≤ s.count + 1; omega
    · show s.count + 1 ≤ s.max_per_min; omega

/-- Helper: every completion of a run lies inside its own window, and
that window is the run state's window or lies at least one whole window
later. -/
theorem rlRun_windows (N : ℕ) :
    ∀ (times : List ℚ) (s : RPO.RateLimiter) (prev : ℚ),
      s.max_per_min = N → 1 ≤ N → s.count ≤ N → s.window_start ≤ prev →
      RPO.ChainedCalls s prev times →
      ∀ q ∈ RPO.rlRun s times,
        (q.2 ≤ q.1 ∧ q.1 < q.2 + 60)
        ∧ (q.2 = s.window_start ∨ s.window_start + 60 ≤ q.2) := by
  intro times
  induction times with
  | nil => intro s prev _ _ _ _ _ q hq; simp [RPO.rlRun] at hq
  | cons now rest ih =>
    intro s prev hmax hN hc hwp hch q hq
    obtain ⟨hpn, hch2⟩ := hch
    have hwn : s.window_start ≤ now := le_trans hwp hpn
    obtain ⟨hm, h1, h2, h3, h4, h5, hdisj⟩ :=
      acquire_step s now hwn (hmax ▸ hN) (hmax ▸ hc)
    rw [RPO.rlRun] at hq
    rcases List.mem_cons.mp hq with hq | hq
    · subst hq
      refine ⟨⟨h1, h2⟩, ?_⟩
      rcases hdisj with ⟨heq, _, _⟩ | ⟨hge, _⟩
      · exact Or.inl heq
      · exact Or.inr hge
    · have hih := ih (s.acquire now).1 (s.acquire now).2
        (by rw [hm, hmax]) hN (by rw [← hmax]; exact h5) h1 hch2 q hq
      refine ⟨hih.1, ?_⟩
      have hwsle : s.window_start ≤ (s.acquire now).1.window_start := by
        rcases hdisj with ⟨heq, _, _⟩ | ⟨hge, _⟩
        · rw [heq]
        · linarith
      rcases hih.2 with hh | hh
      · rcases hdisj with ⟨heq, _, _⟩ | ⟨hge, _⟩
        · exact Or.inl (hh.trans heq)
        · exact Or.inr (by rw [hh]; linarith)
      · exact Or.inr (by linarith)

/-- Helper: any two completions of a run have either the same window or
windows separated by at least one whole 60-second span. -/
theorem rlRun_pairwise (N : ℕ) :
    ∀ (times : List ℚ) (s : RPO.RateLimiter) (prev : ℚ),
      s.max_per_min = N → 1 ≤ N → s.count ≤ N → s.window_start ≤ prev →
      RPO.ChainedCalls s prev times →
      (RPO.rlRun s times).Pairwise
        (fun p q => p.2 = q.2 ∨ p.2 + 60 ≤ q.2 ∨ q.2 + 60 ≤ p.2) := by
  intro times
  induction times with
  | nil => intro s prev _ _ _ _ _; simp [RPO.rlRun]
  | cons now rest ih =>
    intro s prev hmax hN hc hwp hch
    obtain ⟨hpn, hch2⟩ := hch
    have hwn : s.window_start ≤ now := le_trans hwp hpn
    obtain ⟨hm, h1, h2, h3, h4, h5, hdisj⟩ :=
      acquire_step s now hwn (hmax ▸ hN) (hmax ▸ hc)
    rw [RPO.rlRun]
    refine List.Pairwise.cons ?_
      (ih (s.acquire now).1 (s.acquire now).2 (by rw [hm, hmax]) hN
        (by rw [← hmax]; exact h5) h1 hch2)
    intro q hq
    have hq2 := (rlRun_windows N rest (s.acquire now).1 (s.acquire now).2
      (by rw [hm, hmax]) hN (by rw [← hmax]; exact h5) h1 hch2 q hq).2
    rcases hq2 with hh | hh
    · exact Or.inl hh.symm
    · exact Or.inr (Or.inl hh)

/-- Helper: a run adds at most the remaining window budget to the
current window's completion count, and at most the full ceiling to any
other window. -/
theorem rlRun_window_count (N : ℕ) :
    ∀ (times : List ℚ) (s : RPO.RateLimiter) (prev : ℚ),
      s.max_per_min = N → 1 ≤ N → s.count ≤ N → s.window_start ≤ prev →
      RPO.ChainedCalls s prev times →
      ∀ w : ℚ, ((RPO.rlRun s times).countP (fun q => q.2 == w))
        ≤ if w = s.window_start then N - s.count else N := by
  intro times
  induction times with
  | nil =>
    intro s prev _ _ _ _ _ w
    simp only [RPO.rlRun, List.countP_nil]
    split <;> omega
  | cons now rest ih =>
    intro s prev hmax hN hc hwp hch w
    obtain ⟨hpn, hch2⟩ := hch
    have hwn : s.window_start ≤ now := le_trans hwp hpn
    obtain ⟨hm, h1, h2, h3, h4, h5, hdisj⟩ :=
      acquire_step s now hwn (hmax ▸ hN) (hmax ▸ hc)
    have hih := ih (s.acquire now).1 (s.acquire now).2 (by rw [hm, hmax]) hN
      (by rw [← hmax]; exact h5) h1 hch2 w
    rw [RPO.rlRun, List.countP_cons]
    rcases hdisj with ⟨hweq, hcnt, hlt⟩ | ⟨hge, hcnt⟩
    · by_cases hww : w = s.window_start
      · rw [if_pos hww]
        rw [if_pos (by rw [hweq, hww] : w = (s.acquire now).1.window_start)] at hih
        have hhead : ((s.acquire now).1.window_start == w) = true := by
          rw [beq_iff_eq, hweq, hww]
        rw [if_pos hhead]
        omega
      · rw [if_neg hww]
        rw [if_neg (by rw [hweq]; exact hww)] at hih
        have hhead : ¬ (((s.acquire now).1.window_start == w) = true) := by
          rw [beq_iff_eq, hweq]
          exact fun hx => hww hx.symm
        rw [if_neg hhead]
        omega
    · by_cases hww : w = s.window_start
      · rw [if_pos hww]
        have hrest : (RPO.rlRun (s.acquire now).1 rest).countP (fun q => q.2 == w) = 0 := by
          rw [List.countP_eq_zero]
          intro q hq
          have hq2 := (rlRun_windows N rest (s.acquire now).1 (s.acquire now).2
            (by rw [hm, hmax]) hN (by rw [← hmax]; exact h5) h1 hch2 q hq).2
          simp only [beq_iff_eq]
          intro hqw
          rcases hq2 with hh | hh
          · rw [hqw, hww] at hh; linarith
          · rw [hqw, hww] at hh; linarith
        have hhead : ¬ (((s.acquire now).1.window_start == w) = true) := by
          rw [beq_iff_eq]
          intro hx
          rw [hx, hww] at hge
          linarith
        rw [if_neg hhead, hrest]
        omega
      · rw [if_neg hww]
        by_cases hw2 : w = (s.acquire now).1.window_start
        · rw [if_pos hw2] at hih
          have hhead : (((s.acquire now).1.window_start == w) = true) := by
            rw [beq_iff_eq]; exact hw2.symm
          rw [if_pos hhead]
          omega
        · rw [if_neg hw2] at hih
          have hhead : ¬ (((s.acquire now).1.window_start == w) = true) := by
            rw [beq_iff_eq]; exact fun hx => hw2 hx.symm
          rw [if_neg hhead]
          omega

/-- Claim C2 (amended): for a ceiling of at least one request per
minute, along any lock-serialized trace starting with an empty window
count, at most max_per_min completions fall within the 60-second window
that starts at the window start current at any given completion.
acquire never fails: it only delays, as every completion time is at
least its call time (part of acquire_step, reflected in rlRun). -/
theorem C2_window_bound (s : RPO.RateLimiter) (times : List ℚ)
    (hN : 1 ≤ s.max_per_min) (hc : s.count = 0)
    (hv : RPO.ValidTrace s times) :
    ∀ p ∈ RPO.rlRun s times,
      ((RPO.rlRun s times).countP
          (fun q => decide (p.2 ≤ q.1) && decide (q.1 < p.2 + 60)))
        ≤ s.max_per_min := by
  intro p hp
  have hwin := rlRun_windows s.max_per_min times s s.window_start rfl hN (by omega)
    le_rfl hv
  have hpair := rlRun_pairwise s.max_per_min times s s.window_start rfl hN (by omega)
    le_rfl hv
  have hsymm : Symmetric (fun p q : ℚ × ℚ => p.2 = q.2 ∨ p.2 + 60 ≤ q.2 ∨ q.2 + 60 ≤ p.2) := by
    intro a b hab
    rcases hab with h | h | h
    · exact Or.inl h.symm
    · exact Or.inr (Or.inr h)
    · exact Or.inr (Or.inl h)
  have hmono : ∀ q ∈ RPO.rlRun s times,
      ((fun q => decide (p.2 ≤ q.1) && decide (q.1 < p.2 + 60)) q) = true →
      ((fun q : ℚ × ℚ => q.2 == p.2) q) = true := by
    intro q hq ht
    simp only [Bool.and_eq_true, decide_eq_true_eq] at ht
    simp only [beq_iff_eq]
    have hqwin := (hwin q hq).1
    by_cases hpq : p = q
    · rw [hpq]
    · have hrel := (List.Pairwise.forall hsymm hpair) hp hq hpq
      rcases hrel with h | h | h
      · exact h.symm
      · exfalso; linarith [hqwin.1]
      · exfalso; linarith [hqwin.2]
  have hcount := List.countP_mono_left hmono
  have hbound := rlRun_window_count s.max_per_min times s s.window_start rfl hN
    (by omega) le_rfl hv p.2
  have hnn : (if p.2 = s.window_start then s.max_per_min - s.count else s.max_per_min)
      ≤ s.max_per_min := by split <;> omega
  exact le_trans hcount (le_trans hbound hnn)

/-- Claim C2, counterexample: with a ceiling of zero the limiter still
admits one completion per window: on the valid trace with calls at times
0 and 60, the completion at time 60 starts a window in which one
completion falls, exceeding the configured ceiling of zero. -/
theorem C2_counterexample :
    RPO.ValidTrace ⟨0, 0, 0⟩ [0, 60]
    ∧ (60, 60) ∈ RPO.rlRun ⟨0, 0, 0⟩ [0, 60]
    ∧ ((RPO.rlRun ⟨0, 0, 0⟩ [0, 60]).countP
        (fun q => decide ((60 : ℚ) ≤ q.1) && decide (q.1 < 60 + 60))) = 1
    ∧ (RPO.RateLimiter.mk 0 0 0).max_per_min < 1 := by
  refine ⟨?_, ?_, ?_, ?_⟩
  · simp [RPO.ValidTrace, RPO.ChainedCalls, RPO.RateLimiter.acquire]
  · norm_num [RPO.rlRun, RPO.RateLimiter.acquire]
  · norm_num [RPO.rlRun, RPO.RateLimiter.acquire, List.countP_cons]
  · norm_num

/-- Witness for C2 on a concrete ceiling-one limiter and a two-call
trace: the second call is delayed to the next window, and each window
holds at most one completion. -/
theorem C2_witness :
    (0, 0) ∈ RPO.rlRun ⟨1, 0, 0⟩ [0, 10]
    ∧ ((RPO.rlRun ⟨1, 0, 0⟩ [0, 10]).countP
        (fun q => decide (((0, 0) : ℚ × ℚ).2 ≤ q.1)
          && decide (q.1 < ((0, 0) : ℚ × ℚ).2 + 60)))
      ≤ (RPO.RateLimiter.mk 1 0 0).max_per_min := by
  have hv : RPO.ValidTrace ⟨1, 0, 0⟩ [0, 10] := by
    simp [RPO.ValidTrace, RPO.ChainedCalls, RPO.RateLimiter.acquire]
  constructor
  · norm_num [RPO.rlRun, RPO.RateLimiter.acquire]
  · exact C2_window_bound ⟨1, 0, 0⟩ [0, 10] (by norm_num) rfl hv (0, 0)
      (by norm_num [RPO.rlRun, RPO.RateLimiter.acquire])
